import Mathlib

/-!
Verification of the resume-assistant core against its natural-language
specification.  The Python source is shallowly embedded: pure string
processing is translated to functions on `List Char`, the JSON resume
document becomes an inductive `JValue` tree, the `exec`-executed update
commands become a closed `Cmd` type with the semantics Python's `exec`
gives the command strings the prompt requests, and the two external black
boxes (the HTTP call to the text-generation service and Python's
`ast.literal_eval` / `eval` on the extracted string) are abstracted as
explicit outcome inputs.  Aliasing created by `dict.copy()` is modelled by
a small address/heap semantics.
-/

namespace ResumeSpec

/-! ## Extraction of a Python list from the model response
    (`resume_update.py`, `_extract_python_list_from_response`). -/

/-- The ASCII whitespace characters Python's `str.strip()` removes
(space, tab, newline, carriage return, vertical tab, form feed). -/
def isPyWhitespace (c : Char) : Bool :=
  c = ' ' || c = '\t' || c = '\n' || c = '\r' || c = Char.ofNat 11 || c = Char.ofNat 12

/-- Python `str.strip()`: drop whitespace from both ends. -/
def pyStrip (s : List Char) : List Char :=
  ((s.dropWhile isPyWhitespace).reverse.dropWhile isPyWhitespace).reverse

/-- Consume one optional leading newline: the `\n?` tail of the fence
patterns `` ```python\n? `` and `` ```\n? ``. -/
def dropOptNL : List Char → List Char
  | [] => []
  | c :: cs => if c = '\n' then cs else c :: cs

theorem dropOptNL_length_le (l : List Char) : (dropOptNL l).length ≤ l.length := by
  cases l with
  | nil => simp [dropOptNL]
  | cons c cs =>
    simp only [dropOptNL]
    split <;> simp

/-- The scan of `re.sub(pat + "\n?", "", s)`, structurally recursive on a
fuel argument: at each position, a match of `pat` (plus one optional
newline) is deleted and the scan continues after it, else one character
is kept.  Every step consumes at least one character, so fuel equal to
the text length always suffices and the `0, s => s` clause is never
reached from `subRemove`. -/
def subRemoveGo (pat : List Char) : Nat → List Char → List Char
  | _, [] => []
  | 0, s => s
  | fuel + 1, c :: cs =>
    if pat ≠ [] ∧ pat.isPrefixOf (c :: cs) then
      subRemoveGo pat fuel (dropOptNL (cs.drop (pat.length - 1)))
    else
      c :: subRemoveGo pat fuel cs

/-- `re.sub(pat + "\n?", "", s)` for a literal pattern `pat`: scan left to
right, delete every occurrence of `pat` together with one following
newline, continue after the deleted text (non-overlapping, exactly as
`re.sub` does). -/
def subRemove (pat : List Char) (s : List Char) : List Char :=
  subRemoveGo pat s.length s

/-- The fence pattern of `re.sub(r'```python\n?', '', text)`. -/
def fencePython : List Char := "```python".toList

/-- The fence pattern of `re.sub(r'```\n?', '', text)`. -/
def fencePlain : List Char := "```".toList

/-- `text.startswith('[')`. -/
def startsWithBracket : List Char → Bool
  | [] => false
  | c :: _ => c = '['

/-- `text.endswith(']')`. -/
def endsWithBracket (l : List Char) : Bool :=
  match l.getLast? with
  | some c => c = ']'
  | none => false

/-- The bracket-depth scan of `_extract_python_list_from_response`: walk the
characters keeping a counter, `[` increments, `]` decrements, and the scan
stops at the first position where the counter returns to zero, yielding
`end_pos = i + 1`.  `none` models `end_pos == 0` (never balanced). -/
def findEndPosGo : List Char → Int → Nat → Option Nat
  | [], _, _ => none
  | c :: cs, depth, i =>
    if c = '[' then findEndPosGo cs (depth + 1) (i + 1)
    else if c = ']' then
      if depth - 1 = 0 then some (i + 1) else findEndPosGo cs (depth - 1) (i + 1)
    else findEndPosGo cs depth (i + 1)

/-- Bracket matching from the start of the text (the text is known to start
with `[` when this is consulted). -/
def findEndPos (s : List Char) : Option Nat :=
  findEndPosGo s 0 0

/-- Scan up to and including the first `]`, returning the consumed span and
the rest; `none` when no `]` exists.  This is how the lazy regex
`\[.*?\]` (with `re.DOTALL`) completes a match that began at a `[`. -/
def takeToClose : List Char → Option (List Char × List Char)
  | [] => none
  | c :: cs =>
    if c = ']' then some ([']'], cs)
    else (takeToClose cs).map fun pr => (c :: pr.1, pr.2)

theorem takeToClose_snd_length :
    ∀ (l m r : List Char), takeToClose l = some (m, r) → r.length < l.length := by
  intro l
  induction l with
  | nil => intro m r h; simp [takeToClose] at h
  | cons c cs ih =>
    intro m r h
    simp only [takeToClose] at h
    by_cases hc : c = ']'
    · rw [if_pos hc] at h
      simp only [Option.some.injEq, Prod.mk.injEq] at h
      obtain ⟨_, h2⟩ := h
      subst h2
      simp
    · rw [if_neg hc] at h
      cases htc : takeToClose cs with
      | none => rw [htc] at h; simp at h
      | some pr =>
        obtain ⟨pr1, pr2⟩ := pr
        rw [htc] at h
        simp only [Option.map_some', Option.some.injEq, Prod.mk.injEq] at h
        obtain ⟨_, h2⟩ := h
        subst h2
        have := ih pr1 pr2 htc
        simp only [List.length_cons]
        omega

/-- The scan behind `re.findall(r'\[.*?\]', ...)`, structurally recursive
on a fuel argument (each step consumes at least one character, so fuel
equal to the text length always suffices). -/
def lazySpansGo : Nat → List Char → List (List Char)
  | _, [] => []
  | 0, _ => []
  | fuel + 1, c :: cs =>
    if c = '[' then
      match takeToClose cs with
      | some pr => ('[' :: pr.1) :: lazySpansGo fuel pr.2
      | none => []
    else lazySpansGo fuel cs

/-- `re.findall(r'\[.*?\]', text, re.DOTALL)`: the non-overlapping lazy
matches, scanning left to right — each match runs from a `[` to the
nearest `]` after it. -/
def lazySpans (s : List Char) : List (List Char) :=
  lazySpansGo s.length s

/-- Python's `max(matches, key=len)`: keep the first match, replace it only
by a strictly longer one (`max` returns the first maximal element). -/
def longestSpan : List (List Char) → List Char → List Char
  | [], best => best
  | x :: xs, best =>
    if best.length < x.length then longestSpan xs x else longestSpan xs best

/-- The regex fallback of `_extract_python_list_from_response`: all lazy
bracketed spans, the longest one stripped; `"[]"` when there is none. -/
def regexFallback (t : List Char) : List Char :=
  match lazySpans t with
  | [] => "[]".toList
  | m :: ms => pyStrip (longestSpan ms m)

/-- Lines 188–192: both fence substitutions, then `strip()`. -/
def fenceStripped (s0 : List Char) : List Char :=
  pyStrip (subRemove fencePlain (subRemove fencePython s0))

/-- `_extract_python_list_from_response` (`resume_update.py` lines
175–225): remove the markdown fences, strip, and if the text starts with
`[` take the prefix up to the depth-matched close; otherwise (or when the
brackets never balance) fall back to the lazy-regex search; `"[]"` when
that also finds nothing. -/
def extract_python_list_from_response (s0 : List Char) : List Char :=
  if startsWithBracket (fenceStripped s0) then
    match findEndPos (fenceStripped s0) with
    | some n => (fenceStripped s0).take n
    | none => regexFallback (fenceStripped s0)
  else
    regexFallback (fenceStripped s0)

/-! ## The resume document (JSON value tree)

The schema of `generate_structured_resume` / `render_json_editor`: a tree
of objects (Python dicts with string keys, insertion-ordered), arrays
(Python lists) and scalar strings. -/

/-- A JSON-like value: the runtime shape of the resume document. -/
inductive JValue : Type
  | s (v : String)
  | arr (xs : List JValue)
  | obj (fs : List (String × JValue))

/-- Python dict lookup `d[k]` on an insertion-ordered association list. -/
def lookupJ : List (String × JValue) → String → Option JValue
  | [], _ => none
  | (k2, v) :: fs, k => if k2 = k then some v else lookupJ fs k

/-- Python dict assignment `d[k] = v`: replace in place when the key
exists, else append (insertion order). -/
def setKeyJ : List (String × JValue) → String → JValue → List (String × JValue)
  | [], k, v => [(k, v)]
  | (k2, v2) :: fs, k, v =>
    if k2 = k then (k2, v) :: fs else (k2, v2) :: setKeyJ fs k v

/-! ## The external text-generation call and the retry loops

`update_resume_with_groq` (`resume_update.py` 116–173),
`summarize_readme` (`resume_generator.py` 75–118) and
`generate_structured_resume` (`resume_generator.py` 322–360) all have the
shape `while retry_count < max_retries: try ... except (caught kinds) ...`.
One iteration of the body ends in one of three ways, which we take as the
abstract input: a value is returned (`ok`), a caught exception occurs
(`softFail` — the code increments `retry_count` and on exhaustion returns
the fallback value), or an uncaught exception propagates (`raiseExc`). -/

/-- Outcome of one iteration of a retry-loop body. -/
inductive AttemptRes (β : Type) : Type
  | ok (b : β)
  | softFail
  | raiseExc

/-- What the whole loop does: return a value or raise to the caller. -/
inductive RunRes (β : Type) : Type
  | returns (b : β)
  | raises

/-- The `while retry_count < max_retries` loop, `budget` = remaining
iterations, `k` = attempts already made; returns the result and the number
of attempts made.  A `softFail` at the last permitted attempt returns the
fallback, exactly as the `if retry_count >= max_retries: return fallback`
arm does. -/
def retryGo (att : Nat → AttemptRes β) (fb : β) : Nat → Nat → RunRes β × Nat
  | 0, k => (.returns fb, k)
  | budget + 1, k =>
    match att k with
    | .ok b => (.returns b, k + 1)
    | .raiseExc => (.raises, k + 1)
    | .softFail => retryGo att fb budget (k + 1)

/-- A bounded retry loop with `maxRetries` iterations and a fallback. -/
def retryLoop (maxRetries : Nat) (att : Nat → AttemptRes β) (fb : β) : RunRes β × Nat :=
  retryGo att fb maxRetries 0

theorem retryGo_snd_le (att : Nat → AttemptRes β) (fb : β) :
    ∀ (budget k : Nat), (retryGo att fb budget k).2 ≤ k + budget := by
  intro budget
  induction budget with
  | zero => intro k; simp [retryGo]
  | succ b ih =>
    intro k
    simp only [retryGo]
    cases att k with
    | ok v => simp
    | raiseExc => simp
    | softFail =>
      have := ih (k + 1)
      simp only
      omega

theorem retryGo_allFail (att : Nat → AttemptRes β) (fb : β)
    (h : ∀ k, att k = .softFail) :
    ∀ (budget k : Nat), retryGo att fb budget k = (.returns fb, k + budget) := by
  intro budget
  induction budget with
  | zero => intro k; simp [retryGo]
  | succ b ih =>
    intro k
    simp only [retryGo, h k]
    rw [ih (k + 1)]
    congr 1
    omega

/-! ## Parsing the model response into commands
    (`update_resume_with_groq`, `resume_update.py` 116–173)

The body of the loop: POST to the service, `raise_for_status`, read
`response.json()["choices"][0]["message"]["content"]`, extract the list
text, parse it with `ast.literal_eval` falling back to `eval`, and check
it is a list of strings.  The HTTP outcome and the verdicts of the two
Python evaluators on the extracted text are the abstract inputs. -/

/-- Verdict of `ast.literal_eval` / `eval` on the extracted text, reduced
to what lines 151–155 inspect: a list of strings, a list with a non-string
member, or a non-list value.  `none` in the oracle means the evaluator
raised. -/
inductive PyLit : Type
  | strList (cmds : List String)
  | nonStrList
  | nonList

/-- The two evaluators' verdicts on the extracted command text:
`astResult` for `ast.literal_eval`, `evalResult` for `eval`; `none` means
that evaluator raises on this text. -/
structure EvalOracle : Type where
  astResult : Option PyLit
  evalResult : Option PyLit

/-- One HTTP round trip to the text-generation endpoint, reduced to what
the code distinguishes: a `requests` error, invalid JSON body or non-2xx
status (all caught — `RequestException`, and `ValueError` for a
non-`requests` JSON error); a 2xx JSON body *without* the
`choices[0].message.content` shape (reading it raises an *uncaught*
`KeyError`/`IndexError`/`TypeError`); or a content string together with
the evaluators' verdicts on its extracted list text. -/
inductive HttpResult : Type
  | netError
  | badBody
  | content (s : List Char) (o : EvalOracle)

/-- Lines 150–155: `isinstance(commands, list) and all(isinstance(cmd, str)
...)` — a list of strings is returned, anything else raises `ValueError`,
which the `except` clause catches (a soft failure). -/
def validateCommands : PyLit → AttemptRes (List String)
  | .strList cmds => .ok cmds
  | .nonStrList => .softFail
  | .nonList => .softFail

/-- Lines 133–148 applied to the extracted text `t`: when `t` is
bracket-delimited, try `ast.literal_eval`; on failure fall back to `eval`;
if that also raises, `commands = []`.  Otherwise `commands = []` directly.
The second component records whether `eval` was invoked. -/
def parseExtracted (o : EvalOracle) (t : List Char) : AttemptRes (List String) × Bool :=
  if startsWithBracket t ∧ endsWithBracket t then
    match o.astResult with
    | some lit => (validateCommands lit, false)
    | none =>
      match o.evalResult with
      | some lit => (validateCommands lit, true)
      | none => (validateCommands (.strList []), true)
  else
    (validateCommands (.strList []), false)

/-- One iteration of `update_resume_with_groq`'s loop body, from the HTTP
outcome: the content string is stripped (line 126), the list text is
extracted and parsed.  The Bool records whether `eval` was reached. -/
def groqParseAttempt : HttpResult → AttemptRes (List String) × Bool
  | .netError => (.softFail, false)
  | .badBody => (.raiseExc, false)
  | .content s o => parseExtracted o (extract_python_list_from_response (pyStrip s))

/-- `update_resume_with_groq` as a whole: `max_retries = 1` (line 116),
fallback `[]` (lines 168 and 173), over a stream of HTTP outcomes (attempt
`k` sees `hs k`). -/
def update_resume_with_groq (hs : Nat → HttpResult) : RunRes (List String) × Nat :=
  retryLoop 1 (fun k => (groqParseAttempt (hs k)).1) []

theorem validateCommands_ne_raise (lit : PyLit) :
    validateCommands lit ≠ .raiseExc := by
  cases lit <;> simp [validateCommands]

theorem parseExtracted_ne_raise (o : EvalOracle) (t : List Char) :
    (parseExtracted o t).1 ≠ .raiseExc := by
  unfold parseExtracted
  split
  · cases ha : o.astResult with
    | some lit => simpa using validateCommands_ne_raise lit
    | none =>
      cases he : o.evalResult with
      | some lit => simpa using validateCommands_ne_raise lit
      | none => simpa using validateCommands_ne_raise (.strList [])
  · simpa using validateCommands_ne_raise (.strList [])

/-! ## The summarizer's and generator's retry loops -/

/-- The fixed fallback of `summarize_readme` (`resume_generator.py`
lines 113 and 118). -/
def fallbackSummary (repo_name : String) : String :=
  "Project: " ++ repo_name ++ " - Unable to generate summary"

/-- `summarize_readme`: `max_retries = 3` (line 75); only
`RequestException` is caught (`softFail`); on exhaustion the fixed
fallback string for the repository. -/
def summarize_readme (repo_name : String) (att : Nat → AttemptRes String) :
    RunRes String × Nat :=
  retryLoop 3 att (fallbackSummary repo_name)

/-- `_get_fallback_resume_structure` (`resume_generator.py` 410–464): the
fixed structure returned when generation fails; it ignores its
`resume_text` / `project_summaries` arguments. -/
def get_fallback_resume_structure : JValue :=
  .obj [
    ("name", .s "Your Name"),
    ("email", .s "your.email@example.com"),
    ("phone", .s "Your Phone Number"),
    ("location", .s "Your Location"),
    ("linkedin", .s "Your LinkedIn"),
    ("github", .s "Your GitHub"),
    ("summary", .s "Please edit this summary section with your professional summary."),
    ("skills", .obj [
      ("technical_skills", .arr [.s "Please", .s "add", .s "your", .s "technical", .s "skills"]),
      ("programming_languages", .arr [.s "Add", .s "programming", .s "languages"]),
      ("frameworks", .arr [.s "Add", .s "frameworks"]),
      ("databases", .arr [.s "Add", .s "databases"]),
      ("tools", .arr [.s "Add", .s "tools"])]),
    ("experience", .arr [.obj [
      ("title", .s "Job Title"),
      ("company", .s "Company Name"),
      ("duration", .s "Start Date - End Date"),
      ("location", .s "Location"),
      ("description", .s "Please add your job description and achievements here.")]]),
    ("projects", .arr [.obj [
      ("name", .s "Project Name"),
      ("description", .s "Please add project description here."),
      ("technologies", .arr [.s "Add", .s "technologies", .s "used"])]]),
    ("education", .arr [.obj [
      ("degree", .s "Your Degree"),
      ("institution", .s "Your Institution"),
      ("year", .s "Graduation Year"),
      ("gpa", .s "GPA (optional)")]]),
    ("certifications", .arr [.s "Add your certifications here"]),
    ("note", .s "AI generation failed. Please manually edit all sections above.")]

/-- `generate_structured_resume`: `max_retries = 1` (line 322); caught
kinds (`JSONDecodeError`, `ValueError`, `RequestException`) are soft
failures; on exhaustion `_get_fallback_resume_structure` (lines 354 and
360). -/
def generate_structured_resume (att : Nat → AttemptRes JValue) : RunRes JValue × Nat :=
  retryLoop 1 att get_fallback_resume_structure

/-! ## The update commands and their execution
    (`execute_resume_updates`, `resume_update.py` 227–254)

Each command string is executed with `exec(command, {"resume": resume})`.
The prompt (lines 48–98) makes the model emit exactly three statement
shapes over the document: `resume<path> = <value>`,
`resume<path>.append(<value>)` and `resume<path>.pop(<index>)`, with paths
of string keys and non-negative integer indices.  We embed those
statements as a closed `Cmd` type and give them the semantics Python's
`exec` gives them on dict/list trees.  A command raising (`KeyError` for a
missing key, `IndexError` for an out-of-bounds index, `TypeError` /
`AttributeError` for an operation on a value of the wrong shape) is
`none`; the loop's `except` then skips it.  (Not modelled: int-keyed dict
assignment — every dict in the schema is string-keyed.) -/

/-- One path segment: `['key']` or `[i]`. -/
inductive Seg : Type
  | key (k : String)
  | idx (i : Nat)

/-- One executable update command. -/
inductive Cmd : Type
  | set (p : List Seg) (v : JValue)
  | append (p : List Seg) (v : JValue)
  | pop (p : List Seg) (i : Nat)

/-- `resume<q>[last] = v`, evaluated as Python does: intermediate segments
must resolve (else `KeyError`/`IndexError`/`TypeError`); a final string
key assigns into a dict (creating the key if absent); a final index
assigns into a list only in bounds (else `IndexError`). -/
def setPath : JValue → List Seg → JValue → Option JValue
  | .obj fs, [.key k], v => some (.obj (setKeyJ fs k v))
  | .arr xs, [.idx i], v =>
    if i < xs.length then some (.arr (xs.set i v)) else none
  | .obj fs, .key k :: p2 :: p, v =>
    (lookupJ fs k).bind fun child =>
      (setPath child (p2 :: p) v).map fun c => .obj (setKeyJ fs k c)
  | .arr xs, .idx i :: p2 :: p, v =>
    match xs.get? i with
    | some child => (setPath child (p2 :: p) v).map fun c => .arr (xs.set i c)
    | none => none
  | _, _, _ => none

/-- `resume<p>.append(v)`: the path must resolve to a list (a dict or a
string has no `append` — `AttributeError`). -/
def appendPath : JValue → List Seg → JValue → Option JValue
  | .arr xs, [], v => some (.arr (xs ++ [v]))
  | .obj fs, .key k :: p, v =>
    (lookupJ fs k).bind fun child =>
      (appendPath child p v).map fun c => .obj (setKeyJ fs k c)
  | .arr xs, .idx i :: p, v =>
    match xs.get? i with
    | some child => (appendPath child p v).map fun c => .arr (xs.set i c)
    | none => none
  | _, _, _ => none

/-- `resume<p>.pop(i)`: the path must resolve to a list and `i` must be in
bounds (else `IndexError`). -/
def popPath : JValue → List Seg → Nat → Option JValue
  | .arr xs, [], i =>
    if i < xs.length then some (.arr (xs.eraseIdx i)) else none
  | .obj fs, .key k :: p, i =>
    (lookupJ fs k).bind fun child =>
      (popPath child p i).map fun c => .obj (setKeyJ fs k c)
  | .arr xs, .idx j :: p, i =>
    match xs.get? j with
    | some child => (popPath child p i).map fun c => .arr (xs.set j c)
    | none => none
  | _, _, _ => none

/-- `exec` of one command on the document; `none` = the command raised. -/
def applyCmd (doc : JValue) : Cmd → Option JValue
  | .set p v => setPath doc p v
  | .append p v => appendPath doc p v
  | .pop p i => popPath doc p i

/-- `execute_resume_updates` (lines 227–254): run the commands in order on
the document itself (`resume = resume_json`, no copy); a command that
raises is caught, logged and skipped (`continue`), each success increments
`executed_commands`.  The pair is the final document together with the
`executed_commands` counter (the Python function's `return` statement
yields only the document; the counter is only printed). -/
def execute_resume_updates : JValue → List Cmd → JValue × Nat
  | doc, [] => (doc, 0)
  | doc, c :: cs =>
    match applyCmd doc c with
    | some doc2 =>
      ((execute_resume_updates doc2 cs).1, (execute_resume_updates doc2 cs).2 + 1)
    | none => execute_resume_updates doc cs

/-- The value `execute_resume_updates` actually returns (line 254):
the document alone. -/
def execute_resume_updates_return (doc : JValue) (cmds : List Cmd) : JValue :=
  (execute_resume_updates doc cmds).1

/-- The count the chat widget's success message reports
(`resume_chat_widget.py` line 517): `change_count = len(commands)` — the
number of parsed commands, not the number that applied. -/
def reported_change_count (cmds : List Cmd) : Nat := cmds.length

/-- Whether the field `k` of a document currently holds an array. -/
def isArrayAt (doc : JValue) (k : String) : Bool :=
  match doc with
  | .obj fs =>
    match lookupJ fs k with
    | some (.arr _) => true
    | _ => false
  | _ => false

theorem execute_resume_updates_append (doc : JValue) (xs ys : List Cmd) :
    execute_resume_updates doc (xs ++ ys)
      = ((execute_resume_updates (execute_resume_updates doc xs).1 ys).1,
         (execute_resume_updates doc xs).2
           + (execute_resume_updates (execute_resume_updates doc xs).1 ys).2) := by
  induction xs generalizing doc with
  | nil => simp [execute_resume_updates]
  | cons c cs ih =>
    cases hc : applyCmd doc c with
    | some doc2 =>
      simp only [List.cons_append, execute_resume_updates, List.append_eq, hc,
        ih doc2, Prod.mk.injEq]
      exact ⟨trivial, by omega⟩
    | none =>
      simp only [List.cons_append, execute_resume_updates, List.append_eq, hc]
      exact ih doc

/-! ## Aliasing: the shallow copy of the session document
    (`resume_chat_widget.py` 497/511/514, `resume_update.py` 238–248)

`handle_message_processing` takes
`current_resume = st.session_state.resume_data.copy()` — a *shallow*
`dict.copy()` — and `execute_resume_updates` mutates that working copy in
place.  To speak about sharing we give the document tree an explicit
address/heap semantics: nodes live at addresses, dicts and lists hold
child addresses, and `dict.copy()` allocates one new top-level dict node
that holds the *same* child addresses.  Command payloads are scalar
strings (the shape the prompt's examples produce); a fresh address is
allocated for each. -/

/-- A heap address (a Python object identity). -/
abbrev Addr : Type := Nat

/-- One heap node: a string, a list of child addresses, or a dict mapping
keys to child addresses. -/
inductive HNode : Type
  | hstr (v : String)
  | harr (es : List Addr)
  | hobj (fs : List (String × Addr))

/-- The heap: a partial map from addresses to nodes. -/
def Heap : Type := Addr → Option HNode

/-- Write one node (in-place mutation of the object at `a`). -/
def heapUpd (h : Heap) (a : Addr) (n : HNode) : Heap :=
  fun x => if x = a then some n else h x

/-- Dict lookup on a node's field table. -/
def lookupA : List (String × Addr) → String → Option Addr
  | [], _ => none
  | (k2, a) :: fs, k => if k2 = k then some a else lookupA fs k

/-- Dict assignment on a node's field table. -/
def setKeyA : List (String × Addr) → String → Addr → List (String × Addr)
  | [], k, a => [(k, a)]
  | (k2, a2) :: fs, k, a =>
    if k2 = k then (k2, a) :: fs else (k2, a2) :: setKeyA fs k a

/-- Resolve a path of subscripts from an address, as Python evaluates
`resume['k'][i]...`: `none` is a raised `KeyError`/`IndexError`/
`TypeError`. -/
def resolveH (h : Heap) : Addr → List Seg → Option Addr
  | a, [] => some a
  | a, .key k :: p =>
    match h a with
    | some (.hobj fs) =>
      match lookupA fs k with
      | some a2 => resolveH h a2 p
      | none => none
    | _ => none
  | a, .idx i :: p =>
    match h a with
    | some (.harr es) =>
      match es.get? i with
      | some a2 => resolveH h a2 p
      | none => none
    | _ => none

/-- Split a non-empty path into its prefix and last segment (the container
path and the final subscript of an assignment). -/
def splitLastSeg : List Seg → Option (List Seg × Seg)
  | [] => none
  | [x] => some ([], x)
  | x :: y :: p => (splitLastSeg (y :: p)).map fun q => (x :: q.1, q.2)

/-- `dict.copy()` of the node at `root` into the fresh address `fresh`:
one new dict node holding the same child addresses. -/
def dict_copy (h : Heap) (root fresh : Addr) : Option Heap :=
  match h root with
  | some (.hobj fs) => some (heapUpd h fresh (.hobj fs))
  | _ => none

/-- `exec` of one command against the heap through the root `root`, with
`g` the next free address for allocating the string payload.  Returns the
new heap, the address of the container that was mutated in place, and the
next free address.  `none` = the command raised (and is skipped).
Commands with non-string payloads are outside this aliasing model. -/
def execCmdH (h : Heap) (root g : Addr) : Cmd → Option (Heap × Addr × Addr)
  | .append p (.s v) =>
    match resolveH h root p with
    | some a =>
      match h a with
      | some (.harr es) =>
        some (heapUpd (heapUpd h g (.hstr v)) a (.harr (es ++ [g])), a, g + 1)
      | _ => none
    | none => none
  | .pop p i =>
    match resolveH h root p with
    | some a =>
      match h a with
      | some (.harr es) =>
        if i < es.length then
          some (heapUpd h a (.harr (es.eraseIdx i)), a, g)
        else none
      | _ => none
    | none => none
  | .set p (.s v) =>
    match splitLastSeg p with
    | some (q, .key k) =>
      match resolveH h root q with
      | some a =>
        match h a with
        | some (.hobj fs) =>
          some (heapUpd (heapUpd h g (.hstr v)) a (.hobj (setKeyA fs k g)), a, g + 1)
        | _ => none
      | none => none
    | some (q, .idx i) =>
      match resolveH h root q with
      | some a =>
        match h a with
        | some (.harr es) =>
          if i < es.length then
            some (heapUpd (heapUpd h g (.hstr v)) a (.harr (es.set i g)), a, g + 1)
          else none
        | _ => none
      | none => none
    | none => none
  | _ => none

/-- Read the document tree back from an address (fuel-bounded since heaps
are a priori graphs). -/
def readDoc : Nat → Heap → Addr → Option JValue
  | 0, _, _ => none
  | fuel + 1, h, a =>
    match h a with
    | some (.hstr v) => some (.s v)
    | some (.harr es) => (es.mapM (readDoc fuel h)).map .arr
    | some (.hobj fs) =>
      (fs.mapM fun kv => (readDoc fuel h kv.2).map fun v => (kv.1, v)).map .obj
    | none => none

/-- Read a string array (such as the `skills` field) at an address. -/
def readStrArr (h : Heap) (a : Addr) : Option (List String) :=
  match h a with
  | some (.harr es) =>
    es.mapM fun e =>
      match h e with
      | some (.hstr v) => some v
      | _ => none
  | _ => none

/-- Read the `skills` field of the document rooted at `root`. -/
def readSkills (h : Heap) (root : Addr) : Option (List String) :=
  match h root with
  | some (.hobj fs) =>
    match lookupA fs "skills" with
    | some a => readStrArr h a
    | none => none
  | _ => none

theorem execCmdH_frame {h : Heap} {root g : Addr} {c : Cmd} {h2 : Heap}
    {tgt g2 : Addr} (hx : execCmdH h root g c = some (h2, tgt, g2)) :
    ∀ a, a ≠ tgt → a ≠ g → h2 a = h a := by
  intro a ha hg
  cases c with
  | set p v =>
    cases v with
    | s vs =>
      simp only [execCmdH] at hx
      split at hx
      · split at hx
        · split at hx
          · simp only [Option.some.injEq, Prod.mk.injEq] at hx
            obtain ⟨hh, htgt, _⟩ := hx
            subst hh; subst htgt
            simp [heapUpd, ha, hg]
          · exact absurd hx (by simp)
        · exact absurd hx (by simp)
      · split at hx
        · split at hx
          · split at hx
            · simp only [Option.some.injEq, Prod.mk.injEq] at hx
              obtain ⟨hh, htgt, _⟩ := hx
              subst hh; subst htgt
              simp [heapUpd, ha, hg]
            · exact absurd hx (by simp)
          · exact absurd hx (by simp)
        · exact absurd hx (by simp)
      · exact absurd hx (by simp)
    | arr xs => exact absurd hx (by simp [execCmdH])
    | obj fs => exact absurd hx (by simp [execCmdH])
  | append p v =>
    cases v with
    | s vs =>
      simp only [execCmdH] at hx
      split at hx
      · split at hx
        · simp only [Option.some.injEq, Prod.mk.injEq] at hx
          obtain ⟨hh, htgt, _⟩ := hx
          subst hh; subst htgt
          simp [heapUpd, ha, hg]
        · exact absurd hx (by simp)
      · exact absurd hx (by simp)
    | arr xs => exact absurd hx (by simp [execCmdH])
    | obj fs => exact absurd hx (by simp [execCmdH])
  | pop p i =>
    simp only [execCmdH] at hx
    split at hx
    · split at hx
      · split at hx
        · simp only [Option.some.injEq, Prod.mk.injEq] at hx
          obtain ⟨hh, htgt, _⟩ := hx
          subst hh; subst htgt
          simp [heapUpd, ha]
        · exact absurd hx (by simp)
      · exact absurd hx (by simp)
    · exact absurd hx (by simp)

/-- Reading through two addresses that hold the same node gives the same
tree: the heart of sharing-visibility. -/
theorem readDoc_eq_of_same_node {h : Heap} {a b : Addr} (hab : h a = h b) :
    ∀ fuel, readDoc fuel h a = readDoc fuel h b := by
  intro fuel
  cases fuel with
  | zero => rfl
  | succ n =>
    simp only [readDoc]
    rw [hab]

/-! ## The chat session state machine
    (`resume_chat_widget.py` 465–535, `main.py` 472–476)

Session state: the `chat_processing` flag and the `chat_messages`
transcript.  Streamlit runs the script top to bottom once per user
interaction; `main.py` line 476 calls `handle_message_processing` *first*,
before any widget is rendered, and both `process_message` and
`handle_message_processing`'s `finally` end with `st.rerun()`, which
aborts the current run.  One `scriptRun` is therefore: the handler, and
only if the handler did not process (no `st.rerun` was issued) the render
phase in which at most one widget event (a send, or the clear-chat
button) takes effect.  Message content strings with apostrophes in the
source are reproduced without them (the content never influences control
flow except through emptiness). -/

/-- The `type` field of a transcript entry. -/
inductive MsgType : Type
  | user
  | success
  | error
  | bot
deriving DecidableEq

/-- One transcript entry (`{'type': ..., 'content': ..., 'timestamp': ...}`;
the timestamp plays no role). -/
structure Msg : Type where
  mtype : MsgType
  content : String
deriving DecidableEq

/-- The session state the widget owns: `st.session_state.chat_processing`
and `st.session_state.chat_messages`. -/
structure ChatState : Type where
  processing : Bool
  messages : List Msg
deriving DecidableEq

/-- How one handled turn ends: the parser raised (caught by the outer
`except Exception`), produced no commands, or produced `n` commands that
were executed. -/
inductive TurnOutcome : Type
  | parseRaises
  | noCommands
  | applied (n : Nat)

/-- `msg['type'] == 'user'`. -/
def isUserMsg (m : Msg) : Bool :=
  match m.mtype with
  | .user => true
  | _ => false

/-- Lines 488–492: walk the transcript in reverse, take the first user
message's content. -/
def findLastUser (msgs : List Msg) : Option String :=
  (msgs.reverse.find? isUserMsg).map Msg.content

/-- Line 520's success text, pluralized exactly as the f-string does. -/
def successText (n : Nat) : String :=
  "Resume updated! Applied " ++ toString n ++ " change"
    ++ (if 1 < n then "s" else "") ++ "."

/-- Line 506's could-not-understand text (apostrophes elided). -/
def noCommandsText : String :=
  "I could not understand your request. Please be more specific about what you would like to change."

/-- Line 528's error text (the exception rendering abridged). -/
def errorText : String := "Sorry, there was an error: ..."

/-- The transcript entry each outcome appends. -/
def outcomeMsg : TurnOutcome → Msg
  | .parseRaises => ⟨.error, errorText⟩
  | .noCommands => ⟨.error, noCommandsText⟩
  | .applied n => ⟨.success, successText n⟩

/-- `handle_message_processing` (lines 484–535): runs only when the flag
is set and the transcript non-empty; finds the last user message; when its
content is truthy, every path of the `try`/`except` appends an outcome
entry and the `finally` clears the flag and issues `st.rerun()` (the
returned Bool).  When no truthy user message is found nothing happens and
the flag stays set. -/
def handle_message_processing (s : ChatState) (o : TurnOutcome) : ChatState × Bool :=
  if s.processing = true ∧ s.messages ≠ [] then
    match findLastUser s.messages with
    | some m =>
      if m ≠ "" then (⟨false, s.messages ++ [outcomeMsg o]⟩, true)
      else (s, false)
    | none => (s, false)
  else (s, false)

/-- `process_message` (lines 465–482): append the user entry, set the
flag (then clear the input and `st.rerun()`). -/
def process_message (s : ChatState) (m : String) : ChatState :=
  ⟨true, s.messages ++ [⟨.user, m⟩]⟩

/-- The widget event a render phase can deliver: a send (`m` stands for
the already-stripped input; both entry points — the send button, line 436,
and the Enter callback, line 455 — require a non-empty strip and a clear
flag), the clear-chat button (line 430: empties the transcript, leaves the
flag), or nothing. -/
inductive RenderEvent : Type
  | send (m : String)
  | clearChat
  | idle

/-- The render phase, applying at most one event. -/
def renderPhase (s : ChatState) : RenderEvent → ChatState
  | .send m =>
    if s.processing = false ∧ m ≠ "" then process_message s m else s
  | .clearChat => ⟨s.processing, []⟩
  | .idle => s

/-- One full script run (`main.py` `run`): the handler first; its
`st.rerun()` (second component `true`) aborts the run before the render
phase. -/
def scriptRun (s : ChatState) (o : TurnOutcome) (ev : RenderEvent) : ChatState :=
  match handle_message_processing s o with
  | (s1, true) => s1
  | (s1, false) => renderPhase s1 ev

/-- The session states reachable from a fresh session
(`initialize_session_state`: flag clear, transcript empty). -/
inductive ReachableChat : ChatState → Prop
  | init : ReachableChat ⟨false, []⟩
  | step (s : ChatState) (o : TurnOutcome) (ev : RenderEvent) :
      ReachableChat s → ReachableChat (scriptRun s o ev)

/-- The reachability invariant: every user entry has truthy content, and
whenever the flag is set some user entry exists. -/
def ChatInv (s : ChatState) : Prop :=
  (∀ m ∈ s.messages, isUserMsg m = true → m.content ≠ "")
  ∧ (s.processing = true → ∃ m ∈ s.messages, isUserMsg m = true)

theorem outcomeMsg_not_user (o : TurnOutcome) : isUserMsg (outcomeMsg o) = false := by
  cases o <;> rfl

theorem handle_processes (s : ChatState) (o : TurnOutcome)
    (hinv : ChatInv s) (hp : s.processing = true) :
    handle_message_processing s o
      = (⟨false, s.messages ++ [outcomeMsg o]⟩, true) := by
  obtain ⟨h1, h2⟩ := hinv
  obtain ⟨m, hm, hmu⟩ := h2 hp
  have hne : s.messages ≠ [] := by
    intro h
    rw [h] at hm
    exact absurd hm (List.not_mem_nil m)
  have hfind : ∃ m2, (s.messages.reverse.find? isUserMsg) = some m2 := by
    cases hf : s.messages.reverse.find? isUserMsg with
    | some m2 => exact ⟨m2, rfl⟩
    | none =>
      have := List.find?_eq_none.mp hf m (List.mem_reverse.mpr hm)
      exact absurd hmu this
  obtain ⟨m2, hm2⟩ := hfind
  have hm2u : isUserMsg m2 = true := List.find?_some hm2
  have hm2mem : m2 ∈ s.messages := List.mem_reverse.mp (List.mem_of_find?_eq_some hm2)
  have hm2c : m2.content ≠ "" := h1 m2 hm2mem hm2u
  unfold handle_message_processing
  rw [if_pos ⟨hp, hne⟩]
  unfold findLastUser
  rw [hm2]
  simp only [Option.map_some']
  rw [if_pos hm2c]

theorem chatInv_of_reachable {s : ChatState} (h : ReachableChat s) : ChatInv s := by
  induction h with
  | init =>
    constructor
    · intro m hm; exact absurd hm (List.not_mem_nil m)
    · intro hp; exact absurd hp (by simp)
  | step s o ev _ ih =>
    by_cases hp : s.processing = true
    · rw [scriptRun, handle_processes s o ih hp]
      constructor
      · intro m hm hmu
        rcases List.mem_append.mp hm with hold | hnew
        · exact ih.1 m hold hmu
        · rw [List.mem_singleton.mp hnew] at hmu
          rw [outcomeMsg_not_user o] at hmu
          exact absurd hmu (by simp)
      · intro hfalse; exact absurd hfalse (by simp)
    · have hp2 : s.processing = false := by
        cases hb : s.processing
        · rfl
        · exact absurd hb hp
      have hhandle : handle_message_processing s o = (s, false) := by
        unfold handle_message_processing
        rw [if_neg]
        intro hand
        exact hp hand.1
      rw [scriptRun, hhandle]
      cases ev with
      | send m =>
        simp only [renderPhase]
        by_cases hsend : s.processing = false ∧ m ≠ ""
        · rw [if_pos hsend]
          constructor
          · intro m2 hm2 hm2u
            rcases List.mem_append.mp hm2 with hold | hnew
            · exact ih.1 m2 hold hm2u
            · rw [List.mem_singleton.mp hnew]
              exact hsend.2
          · intro _
            exact ⟨⟨.user, m⟩, List.mem_append.mpr (Or.inr (List.mem_singleton.mpr rfl)), rfl⟩
        · rw [if_neg hsend]; exact ih
      | clearChat =>
        constructor
        · intro m hm; exact absurd hm (List.not_mem_nil m)
        · intro hptrue; exact absurd hptrue hp
      | idle => exact ih

/-! ## The GitHub README fan-out (`main.py`, `get_github_projects` 130–166)

`fetch_readme` runs per repository on a `ThreadPoolExecutor`
(`max_workers = min(32, cpu+4)`); results arrive via `as_completed` — in
completion order, an arbitrary permutation of the repository list.  Each
result is `(repo_name, content)` with `content = None` on any failure;
`if content:` also drops an empty README.  The aggregate is the dict
`project_details[repo_name] = content`. -/

/-- One completed `fetch_readme` future: the repository name and the
content (`none` = failed fetch or no README; `some ""` = empty README,
which `if content:` drops too). -/
structure FetchResult : Type where
  name : String
  content : Option String
deriving DecidableEq

/-- Whether `if content:` accepts the result. -/
def fetchSuccess (r : FetchResult) : Bool :=
  match r.content with
  | some c => c ≠ ""
  | none => false

/-- The dict entry a result contributes, if any. -/
def fetchEntry (r : FetchResult) : Option (String × String) :=
  match r.content with
  | some c => if c = "" then none else some (r.name, c)
  | none => none

/-- `project_details` after the `as_completed` loop, for results arriving
in the given (completion) order: insertion-ordered dict as an association
list (repository names are pairwise distinct, so insertion never
overwrites). -/
def project_details (rs : List FetchResult) : List (String × String) :=
  rs.filterMap fetchEntry

theorem fetchEntry_eq_some_iff (r : FetchResult) (k v : String) :
    fetchEntry r = some (k, v) ↔ r.name = k ∧ r.content = some v ∧ v ≠ "" := by
  unfold fetchEntry
  cases hc : r.content with
  | none => simp
  | some c =>
    simp only
    by_cases hce : c = ""
    · subst hce
      rw [if_pos rfl]
      constructor
      · intro hfalse; cases hfalse
      · rintro ⟨_, h2, h3⟩
        exact absurd (Option.some.inj h2).symm h3
    · rw [if_neg hce]
      constructor
      · intro h
        have h2 := Option.some.inj h
        have h3 : r.name = k := congrArg Prod.fst h2
        have h4 : c = v := congrArg Prod.snd h2
        exact ⟨h3, by rw [h4], fun hv => hce (by rw [h4, hv])⟩
      · rintro ⟨h1, h2, _⟩
        have h4 : c = v := Option.some.inj h2
        rw [h1, h4]

theorem fetchEntry_isSome_iff (r : FetchResult) :
    (fetchEntry r).isSome = fetchSuccess r := by
  unfold fetchEntry fetchSuccess
  cases r.content with
  | none => rfl
  | some c =>
    by_cases hce : c = ""
    · simp [hce]
    · simp [hce]

theorem project_details_length (rs : List FetchResult) :
    (project_details rs).length = rs.countP fetchSuccess := by
  induction rs with
  | nil => rfl
  | cons r rest ih =>
    unfold project_details at ih ⊢
    rw [List.filterMap_cons, List.countP_cons]
    cases hf : fetchEntry r with
    | some e =>
      have : fetchSuccess r = true := by
        rw [← fetchEntry_isSome_iff, hf]; rfl
      simp [this, ih]
    | none =>
      have : fetchSuccess r = false := by
        rw [← fetchEntry_isSome_iff, hf]; rfl
      simp [this, ih]

theorem project_details_keys_sublist (rs : List FetchResult) :
    ((project_details rs).map Prod.fst).Sublist (rs.map FetchResult.name) := by
  induction rs with
  | nil => simp [project_details]
  | cons r rest ih =>
    unfold project_details at ih ⊢
    rw [List.filterMap_cons, List.map_cons]
    cases hf : fetchEntry r with
    | some e =>
      have : e.1 = r.name := by
        obtain ⟨e1, e2⟩ := e
        exact ((fetchEntry_eq_some_iff r e1 e2).mp hf).1.symm
      rw [List.map_cons, this]
      exact List.Sublist.cons₂ r.name ih
    | none => exact List.Sublist.cons r.name ih

theorem lookup_perm_of_nodup :
    ∀ {l l2 : List (String × String)}, l.Perm l2 →
      (l.map Prod.fst).Nodup → ∀ k, l.lookup k = l2.lookup k := by
  intro l l2 hperm
  induction hperm with
  | nil => intro _ k; rfl
  | cons x h ih =>
    intro hnodup k
    obtain ⟨x1, x2⟩ := x
    rw [List.map_cons, List.nodup_cons] at hnodup
    simp only [List.lookup]
    cases hc : k == x1 with
    | false => exact ih hnodup.2 k
    | true => rfl
  | swap x y l0 =>
    intro hnodup k
    obtain ⟨x1, x2⟩ := x
    obtain ⟨y1, y2⟩ := y
    rw [List.map_cons, List.map_cons, List.nodup_cons] at hnodup
    have hxy : y1 ≠ x1 := by
      intro he
      exact hnodup.1 (by rw [he]; exact List.mem_cons_self _ _)
    simp only [List.lookup]
    cases hcy : k == y1 with
    | true =>
      have hky : k = y1 := by simpa using hcy
      have hcx : (k == x1) = false := by
        simp only [beq_eq_false_iff_ne]
        intro he
        exact hxy (hky.symm.trans he)
      rw [hcx]
    | false =>
      cases hcx : k == x1 <;> rfl
  | trans h1 h2 ih1 ih2 =>
    intro hnodup k
    have hn2 := ((h1.map Prod.fst).nodup_iff).mp hnodup
    rw [ih1 hnodup k, ih2 hn2 k]

/-! ## Helper lemmas for the claim theorems -/

theorem mem_dropOptNL {x : Char} {l : List Char} (h : x ∈ dropOptNL l) : x ∈ l := by
  cases l with
  | nil => exact h
  | cons c cs =>
    simp only [dropOptNL] at h
    split at h
    · exact List.mem_cons_of_mem c h
    · exact h

theorem mem_dropWhile {p : Char → Bool} {x : Char} :
    ∀ {l : List Char}, x ∈ l.dropWhile p → x ∈ l := by
  intro l
  induction l with
  | nil => intro h; exact h
  | cons c cs ih =>
    intro h
    by_cases hp : p c
    · rw [List.dropWhile_cons, if_pos hp] at h
      exact List.mem_cons_of_mem c (ih h)
    · rw [List.dropWhile_cons, if_neg hp] at h
      exact h

theorem mem_pyStrip {x : Char} {s : List Char} (h : x ∈ pyStrip s) : x ∈ s := by
  unfold pyStrip at h
  rw [List.mem_reverse] at h
  have h2 := mem_dropWhile h
  rw [List.mem_reverse] at h2
  exact mem_dropWhile h2

theorem mem_subRemoveGo (pat : List Char) :
    ∀ (n : Nat) (s : List Char) (x : Char), x ∈ subRemoveGo pat n s → x ∈ s := by
  intro n
  induction n with
  | zero =>
    intro s x hx
    cases s with
    | nil => simp [subRemoveGo] at hx
    | cons c cs => exact hx
  | succ n ih =>
    intro s x hx
    cases s with
    | nil => simp [subRemoveGo] at hx
    | cons c cs =>
      rw [subRemoveGo] at hx
      by_cases hcond : pat ≠ [] ∧ pat.isPrefixOf (c :: cs)
      · rw [if_pos hcond] at hx
        have hx2 := ih _ x hx
        have hx3 := mem_dropOptNL hx2
        exact List.mem_cons_of_mem c (List.mem_of_mem_drop hx3)
      · rw [if_neg hcond] at hx
        rcases List.mem_cons.mp hx with h1 | h2
        · exact List.mem_cons.mpr (Or.inl h1)
        · exact List.mem_cons_of_mem c (ih cs x h2)

theorem mem_fenceStripped {x : Char} {s : List Char} (h : x ∈ fenceStripped s) : x ∈ s := by
  unfold fenceStripped subRemove at h
  have h1 := mem_pyStrip h
  have h2 := mem_subRemoveGo fencePlain _ _ x h1
  exact mem_subRemoveGo fencePython _ _ x h2

theorem startsWithBracket_eq_false {l : List Char} (h : '[' ∉ l) :
    startsWithBracket l = false := by
  cases l with
  | nil => rfl
  | cons c cs =>
    have hc : c ≠ '[' := fun he => h (he ▸ List.mem_cons_self c cs)
    simp [startsWithBracket, hc]

theorem lazySpansGo_eq_nil :
    ∀ (n : Nat) (s : List Char), '[' ∉ s → lazySpansGo n s = [] := by
  intro n
  induction n with
  | zero =>
    intro s _
    cases s with
    | nil => rfl
    | cons c cs => rfl
  | succ n ih =>
    intro s hmem
    cases s with
    | nil => rfl
    | cons c cs =>
      have hc : c ≠ '[' := fun he => hmem (he ▸ List.mem_cons_self c cs)
      rw [lazySpansGo, if_neg hc]
      exact ih cs (fun hx => hmem (List.mem_cons_of_mem c hx))

theorem lazySpans_eq_nil {s : List Char} (h : '[' ∉ s) : lazySpans s = [] :=
  lazySpansGo_eq_nil s.length s h

/-- After a nested in-place mutation through the working copy, the session
root and the working root still hold the same (unchanged) top-level node:
the frame property of `execCmdH` plus the shallow copy. -/
theorem roots_agree_after_nested_exec {h : Heap} {root fresh g : Addr}
    {fs : List (String × Addr)} {c : Cmd} {h2 : Heap} {tgt g2 : Addr}
    (hroot : h root = some (HNode.hobj fs)) (hfr : fresh ≠ root)
    (hexec : execCmdH (heapUpd h fresh (HNode.hobj fs)) fresh g c = some (h2, tgt, g2))
    (htr : tgt ≠ root) (htf : tgt ≠ fresh) (hgr : g ≠ root) (hgf : g ≠ fresh) :
    h2 root = some (HNode.hobj fs) ∧ h2 fresh = some (HNode.hobj fs) := by
  have hframe := execCmdH_frame hexec
  constructor
  · rw [hframe root htr.symm hgr.symm]
    show (if root = fresh then some (HNode.hobj fs) else h root) = _
    rw [if_neg (fun he => hfr he.symm), hroot]
  · rw [hframe fresh htf.symm hgf.symm]
    simp [heapUpd]

/-! ## Concrete scenarios used by the claim theorems -/

/-- A document whose `skills` field is a one-element string array. -/
def skillsDoc : JValue := .obj [("skills", .arr [.s "Python"])]

/-- A document whose `skills` field is `["a", "b"]`. -/
def skillsDoc2 : JValue := .obj [("skills", .arr [.s "a", .s "b"])]

/-- Command 1 of the three-command batch: `resume['skills'].append('c')`. -/
def batchC1 : Cmd := .append [.key "skills"] (.s "c")

/-- Command 2: `resume['skills'].pop(99)` — out of bounds, it fails. -/
def batchC2 : Cmd := .pop [.key "skills"] 99

/-- Command 3: `resume['skills'].append('d')`. -/
def batchC3 : Cmd := .append [.key "skills"] (.s "d")

/-- The three-command batch whose second command fails. -/
def batch3 : List Cmd := [batchC1, batchC2, batchC3]

/-- The fenced model output of the extraction test. -/
def fencedExample : List Char := "Here you go:\n```\n['a', 'b']\n```".toList

/-- Its expected extraction: the literal two-element list. -/
def fencedExpected : List Char := "['a', 'b']".toList

/-- A response that opens with a nested array and has a stray `]` later:
depth counting must stop at the matching close. -/
def nestedExample : List Char := "[[1], [2]] tail ]".toList

/-- Expected: the balanced nested list, not the naive first-`[`/last-`]`
span. -/
def nestedExpected : List Char := "[[1], [2]]".toList

/-- The session heap: the session document `{skills: ["Python"]}` rooted
at address 0 (skills list at 1, its element at 2). -/
def exHeap : Heap := fun a =>
  if a = 0 then some (.hobj [("skills", 1)])
  else if a = 1 then some (.harr [2])
  else if a = 2 then some (.hstr "Python")
  else none

/-- `current_resume = st.session_state.resume_data.copy()`: the working
copy at fresh address 3 — same `skills` list address 1. -/
def exHeapCopy : Heap := heapUpd exHeap 3 (.hobj [("skills", 1)])

/-- The heap after `resume['skills'].append('Go')` ran on the working
copy ("Go" allocated at 4, the shared list at 1 mutated in place). -/
def exHeapAfter : Heap := heapUpd (heapUpd exHeapCopy 4 (.hstr "Go")) 1 (.harr [2, 4])

/-- Ten completed repository fetches: 3 yield nothing usable (`r1`, `r6`
failed; `r3` returned an empty README) and 7 succeed. -/
def exFetchResults : List FetchResult :=
  [⟨"r0", some "Readme zero"⟩, ⟨"r1", none⟩, ⟨"r2", some "Readme two"⟩,
   ⟨"r3", some ""⟩, ⟨"r4", some "Readme four"⟩, ⟨"r5", some "Readme five"⟩,
   ⟨"r6", none⟩, ⟨"r7", some "Readme seven"⟩, ⟨"r8", some "Readme eight"⟩,
   ⟨"r9", some "Readme nine"⟩]

/-! ## The claim theorems -/

/-- Claim C1.  The claim says the parsing step either strictly parses the
extracted text or yields the empty command list, and that the extracted
text is never handed to a general-purpose expression evaluator.  The code
does the opposite: when `ast.literal_eval` raises, line 143 of
`resume_update.py` evaluates the extracted text with `eval`.  On the model
response `"[f()]"` — on which `ast.literal_eval` raises
`ValueError: malformed node or string` and `eval` raises `NameError` —
the `eval` branch is taken (second component `true`), after which the
attempt degrades to the empty command list. -/
theorem parse_uses_eval_fallback :
    (groqParseAttempt (.content "[f()]".toList ⟨none, none⟩)).2 = true
    ∧ (groqParseAttempt (.content "[f()]".toList ⟨none, none⟩)).1 = .ok [] :=
  ⟨rfl, rfl⟩

/-- Claim C2, counterexample.  `Set` of the scalar string `'oops'` onto the
array field `skills` is *applied* (success count 1), not rejected, and
afterwards `skills` is no longer an array: the batch does not preserve the
declared shape of the field. -/
theorem set_scalar_on_skills_applies :
    execute_resume_updates skillsDoc [Cmd.set [Seg.key "skills"] (JValue.s "oops")]
      = (JValue.obj [("skills", JValue.s "oops")], 1)
    ∧ isArrayAt skillsDoc "skills" = true
    ∧ isArrayAt (JValue.obj [("skills", JValue.s "oops")]) "skills" = false :=
  ⟨rfl, rfl, rfl⟩

/-- Claim C2, amended.  `execute_resume_updates` performs no shape
validation: a top-level `Set` on a dict field always succeeds and counts
as an executed command, whatever the shapes of the old and the new value —
in particular an array field can become a scalar.  Only commands that
raise (missing path, out-of-bounds index, append/pop on a non-list) are
skipped. -/
theorem exec_no_shape_validation :
    ∀ (fs : List (String × JValue)) (k : String) (v : JValue),
      execute_resume_updates (JValue.obj fs) [Cmd.set [Seg.key k] v]
        = (JValue.obj (setKeyJ fs k v), 1) := by
  intro fs k v
  simp [execute_resume_updates, applyCmd, setPath]

/-- Claim C3, counterexample.  On the 3-command batch whose 2nd command
has an out-of-bounds `RemoveAt` index, commands 1 and 3 apply (internal
count 2) — but the function's return value is the document alone, and the
user-facing success message reports `len(commands) = 3`, not the applied
count 2. -/
theorem reported_count_mismatch :
    (execute_resume_updates skillsDoc2 batch3).2 = 2
    ∧ execute_resume_updates_return skillsDoc2 batch3
        = JValue.obj [("skills", JValue.arr [.s "a", .s "b", .s "c", .s "d"])]
    ∧ reported_change_count batch3 = 3
    ∧ ¬ reported_change_count batch3 = 2 :=
  ⟨rfl, rfl, rfl, by decide⟩

/-- Claim C3, amended.  A command that fails mid-batch is skipped and the
remaining commands still apply in order (the final document and count are
those of the batch without the failing command) — but the applied count is
only an internal counter (the function returns the document alone), and
the success message reports the total number of parsed commands,
`pre.length + suf.length + 1`, not the applied count. -/
theorem batch_skip_and_continue :
    ∀ (doc : JValue) (pre : List Cmd) (c : Cmd) (suf : List Cmd),
      applyCmd (execute_resume_updates doc pre).1 c = none →
      execute_resume_updates doc (pre ++ c :: suf)
        = ((execute_resume_updates (execute_resume_updates doc pre).1 suf).1,
           (execute_resume_updates doc pre).2
             + (execute_resume_updates (execute_resume_updates doc pre).1 suf).2)
      ∧ reported_change_count (pre ++ c :: suf) = pre.length + suf.length + 1 := by
  intro doc pre c suf hc
  constructor
  · rw [execute_resume_updates_append doc pre (c :: suf)]
    have hskip : execute_resume_updates (execute_resume_updates doc pre).1 (c :: suf)
        = execute_resume_updates (execute_resume_updates doc pre).1 suf := by
      simp only [execute_resume_updates, hc]
    rw [hskip]
  · simp only [reported_change_count, List.length_append, List.length_cons]
    omega

/-- Witness for the amended C3 at the concrete three-command batch. -/
theorem batch_skip_and_continue_witness :
    execute_resume_updates skillsDoc2 batch3
      = ((execute_resume_updates (execute_resume_updates skillsDoc2 [batchC1]).1 [batchC3]).1,
         (execute_resume_updates skillsDoc2 [batchC1]).2
           + (execute_resume_updates (execute_resume_updates skillsDoc2 [batchC1]).1 [batchC3]).2)
    ∧ reported_change_count batch3 = 1 + 1 + 1 :=
  batch_skip_and_continue skillsDoc2 [batchC1] batchC2 [batchC3] rfl

/-- Claim C4, counterexample.  In the heap model of the shallow
`dict.copy()`: a two-command batch `[append 'Go', append 'Rust']` runs on
the working copy (root 3); a crash after its first command leaves the
heap `exHeapAfter`, in which the *session* document (root 0) already
reads `skills = ["Python", "Go"]` — not the pre-turn value `["Python"]`.
The previous document value is not kept intact until the new one is fully
produced. -/
theorem crash_midbatch_visible :
    readSkills exHeap 0 = some ["Python"]
    ∧ execCmdH exHeapCopy 3 4 (Cmd.append [Seg.key "skills"] (JValue.s "Go"))
        = some (exHeapAfter, 1, 5)
    ∧ readSkills exHeapAfter 0 = some ["Python", "Go"]
    ∧ readSkills exHeapAfter 0 ≠ readSkills exHeap 0 :=
  ⟨rfl, rfl, rfl, by decide⟩

/-- Claim C4, amended.  The working copy protects only the top-level
mapping: after any command that mutates a nested container (its target
resolves below both roots) the session root and the working root read
back the *same* document — the half-applied state is what the session
sees mid-batch, and a crash there leaves it visible.  (Only a rebinding
of a top-level key on the copied dict itself would be isolated until the
final session-state assignment.) -/
theorem shallow_copy_midbatch_visibility :
    ∀ (h : Heap) (root fresh g : Addr) (fs : List (String × Addr)) (c : Cmd)
      (h2 : Heap) (tgt g2 : Addr) (fuel : Nat),
      h root = some (HNode.hobj fs) → fresh ≠ root →
      execCmdH (heapUpd h fresh (HNode.hobj fs)) fresh g c = some (h2, tgt, g2) →
      tgt ≠ root → tgt ≠ fresh → g ≠ root → g ≠ fresh →
      readDoc fuel h2 root = readDoc fuel h2 fresh := by
  intro h root fresh g fs c h2 tgt g2 fuel hroot hfr hexec htr htf hgr hgf
  obtain ⟨h1, h2e⟩ := roots_agree_after_nested_exec hroot hfr hexec htr htf hgr hgf
  exact readDoc_eq_of_same_node (h1.trans h2e.symm) fuel

/-- Witness for the amended C4 at the concrete append-to-skills step. -/
theorem shallow_copy_midbatch_visibility_witness :
    readDoc 3 exHeapAfter 0 = readDoc 3 exHeapAfter 3 :=
  shallow_copy_midbatch_visibility exHeap 0 3 4 [("skills", 1)]
    (Cmd.append [Seg.key "skills"] (JValue.s "Go")) exHeapAfter 1 5 3
    rfl (by decide) rfl (by decide) (by decide) (by decide) (by decide)

/-- Claim C5, counterexample.  The claim says the parse step never raises
to its caller whatever the shape of the response body.  But a 2xx response
whose JSON body lacks the `choices[0].message.content` shape makes line
126 raise an uncaught `KeyError`/`IndexError`/`TypeError` (the `except`
clause catches only `SyntaxError`, `ValueError` and `RequestException`):
the loop ends in `raises`, not in a returned command list. -/
theorem parse_raises_on_bad_body :
    (update_resume_with_groq (fun _ => HttpResult.badBody)).1 = RunRes.raises
    ∧ RunRes.raises ≠ (RunRes.returns ([] : List String)) :=
  ⟨rfl, by intro h; cases h⟩

/-- Claim C5, amended.  The loop makes at most `max_retries = 1` attempt;
a caught failure (network error, non-2xx, invalid JSON body, or a content
string whose extracted text does not validate) degrades to the empty
command list without raising — and the *only* outcome that raises to the
caller is a 2xx body without the expected `choices` shape. -/
theorem parse_retry_bound_and_raise_cases :
    ∀ hs : Nat → HttpResult,
      (update_resume_with_groq hs).2 ≤ 1
      ∧ ((update_resume_with_groq hs).1 = RunRes.raises ↔ hs 0 = HttpResult.badBody)
      ∧ (hs 0 = HttpResult.netError →
          (update_resume_with_groq hs).1 = RunRes.returns []) := by
  intro hs
  refine ⟨?_, ?_, ?_⟩
  · have hle := retryGo_snd_le (fun k => (groqParseAttempt (hs k)).1) [] 1 0
    simpa [update_resume_with_groq, retryLoop] using hle
  · unfold update_resume_with_groq retryLoop retryGo
    cases h0 : hs 0 with
    | netError => simp [groqParseAttempt, retryGo]
    | badBody => simp [groqParseAttempt]
    | content s o =>
      simp only [groqParseAttempt]
      cases hp : (parseExtracted o (extract_python_list_from_response (pyStrip s))).1 with
      | ok b => simp
      | softFail => simp [retryGo]
      | raiseExc => exact absurd hp (parseExtracted_ne_raise o _)
  · intro h0
    unfold update_resume_with_groq retryLoop retryGo
    rw [h0]
    simp [groqParseAttempt, retryGo]

/-- Witness for the amended C5 at the all-network-errors stream. -/
theorem parse_retry_bound_and_raise_cases_witness :
    (update_resume_with_groq (fun _ => HttpResult.netError)).2 ≤ 1
    ∧ (update_resume_with_groq (fun _ => HttpResult.netError)).1 = RunRes.returns [] := by
  obtain ⟨h1, _, h3⟩ := parse_retry_bound_and_raise_cases (fun _ => HttpResult.netError)
  exact ⟨h1, h3 rfl⟩

/-- Claim C6.  Extraction strips code fences, uses bracket-depth counting
from an opening `[` (stopping at the matching close even with nested
arrays and stray brackets after it), and otherwise falls back to the
bracketed-span search, returning the widest span found; with no bracketed
span at all the result is the empty list.  In particular the fenced input
extracts exactly the literal two-element list `['a', 'b']`, and any input
containing no `[` extracts `[]`. -/
theorem extraction_robustness :
    extract_python_list_from_response fencedExample = fencedExpected
    ∧ extract_python_list_from_response nestedExample = nestedExpected
    ∧ (∀ s : List Char, '[' ∉ s → extract_python_list_from_response s = "[]".toList) := by
  refine ⟨by decide, by decide, ?_⟩
  intro s hs
  have hmem : '[' ∉ fenceStripped s := fun hx => hs (mem_fenceStripped hx)
  unfold extract_python_list_from_response
  rw [startsWithBracket_eq_false hmem]
  simp only [Bool.false_eq_true, if_false]
  unfold regexFallback
  rw [lazySpans_eq_nil hmem]

/-- Witness for C6's universal clause at a concrete bracket-free input. -/
theorem extraction_robustness_witness :
    extract_python_list_from_response "hello".toList = "[]".toList :=
  extraction_robustness.2.2 "hello".toList (by decide)

/-- Claim C7.  From every reachable session state with the processing
flag set, the handler — whatever the turn outcome (parse exception, empty
command list, or an applied batch) — clears the flag (and issues the
rerun): no reachable state leaves the session stuck in Processing.  This
holds because every reachable Processing state's transcript contains a
user message with non-empty content, so the handler's guard and truthy
check always pass. -/
theorem processing_always_returns_to_idle :
    ∀ s : ChatState, ReachableChat s → s.processing = true →
      ∀ o : TurnOutcome,
        ((handle_message_processing s o).1).processing = false
        ∧ (handle_message_processing s o).2 = true := by
  intro s hreach hp o
  rw [handle_processes s o (chatInv_of_reachable hreach) hp]
  exact ⟨rfl, rfl⟩

/-- Witness for C7: the state reached by one send turn is Processing, and
the handler transitions it to Idle. -/
theorem processing_always_returns_to_idle_witness :
    ((handle_message_processing
        (scriptRun ⟨false, []⟩ TurnOutcome.noCommands (RenderEvent.send "add Python"))
        TurnOutcome.noCommands).1).processing = false :=
  (processing_always_returns_to_idle _
    (ReachableChat.step _ _ _ ReachableChat.init) (by decide) TurnOutcome.noCommands).1

/-- Claim C8.  The aggregated README map is independent of completion
order: for results arriving in any permutation, the dict has the same
lookups; it holds exactly one entry per fetch that succeeded with
non-empty content (and none for a failed fetch) — so a single failure
never aborts the batch; and on the concrete 10-fetch run with 3 failures
it has exactly 7 entries. -/
theorem fanout_aggregation_order_independent :
    ∀ (rs rs2 : List FetchResult), rs.Perm rs2 →
      (rs.map FetchResult.name).Nodup →
      (∀ k, (project_details rs2).lookup k = (project_details rs).lookup k)
      ∧ (project_details rs2).length = rs.countP fetchSuccess
      ∧ (∀ k v, (k, v) ∈ project_details rs2
          ↔ ∃ r ∈ rs, r.name = k ∧ r.content = some v ∧ v ≠ "")
      ∧ (project_details exFetchResults).length = 7 := by
  intro rs rs2 hperm hnodup
  have hpermd : (project_details rs).Perm (project_details rs2) :=
    hperm.filterMap fetchEntry
  have hkeys : ((project_details rs).map Prod.fst).Nodup :=
    hnodup.sublist (project_details_keys_sublist rs)
  refine ⟨?_, ?_, ?_, by decide⟩
  · intro k
    exact (lookup_perm_of_nodup hpermd hkeys k).symm
  · rw [← hpermd.length_eq]
    exact project_details_length rs
  · intro k v
    rw [← hpermd.mem_iff]
    simp only [project_details, List.mem_filterMap, fetchEntry_eq_some_iff]

/-- Witness for C8: the concrete ten fetches in reversed completion order
aggregate to the same lookups and to 7 entries. -/
theorem fanout_aggregation_order_independent_witness :
    ((project_details exFetchResults.reverse).lookup "r0"
        = (project_details exFetchResults).lookup "r0")
    ∧ (project_details exFetchResults.reverse).length
        = exFetchResults.countP fetchSuccess := by
  obtain ⟨h1, h2, _, _⟩ := fanout_aggregation_order_independent
    exFetchResults exFetchResults.reverse
    (exFetchResults.reverse_perm).symm (by decide)
  exact ⟨h1 "r0", h2⟩

/-- Claim C9.  Every retry loop in the core makes a bounded number of
attempts (parse: 1; README summarization: 3; structured-resume
generation: 1) and on exhaustion yields its deterministic fallback: the
empty command list, the fixed string
`Project: <repo_name> - Unable to generate summary`, and the fixed
fallback resume structure. -/
theorem retry_loops_bounded_with_fallbacks :
    ∀ (hs : Nat → HttpResult) (attS : Nat → AttemptRes String)
      (attG : Nat → AttemptRes JValue) (repo : String),
      (update_resume_with_groq hs).2 ≤ 1
      ∧ (summarize_readme repo attS).2 ≤ 3
      ∧ (generate_structured_resume attG).2 ≤ 1
      ∧ ((∀ k, (groqParseAttempt (hs k)).1 = AttemptRes.softFail) →
          (update_resume_with_groq hs).1 = RunRes.returns [])
      ∧ ((∀ k, attS k = AttemptRes.softFail) →
          (summarize_readme repo attS).1 = RunRes.returns (fallbackSummary repo))
      ∧ ((∀ k, attG k = AttemptRes.softFail) →
          (generate_structured_resume attG).1
            = RunRes.returns get_fallback_resume_structure) := by
  intro hs attS attG repo
  refine ⟨?_, ?_, ?_, ?_, ?_, ?_⟩
  · simpa [update_resume_with_groq, retryLoop] using
      retryGo_snd_le (fun k => (groqParseAttempt (hs k)).1) [] 1 0
  · simpa [summarize_readme, retryLoop] using
      retryGo_snd_le attS (fallbackSummary repo) 3 0
  · simpa [generate_structured_resume, retryLoop] using
      retryGo_snd_le attG get_fallback_resume_structure 1 0
  · intro hall
    have h := retryGo_allFail (fun k => (groqParseAttempt (hs k)).1) [] hall 1 0
    simp [update_resume_with_groq, retryLoop, h]
  · intro hall
    have h := retryGo_allFail attS (fallbackSummary repo) hall 3 0
    simp [summarize_readme, retryLoop, h]
  · intro hall
    have h := retryGo_allFail attG get_fallback_resume_structure hall 1 0
    simp [generate_structured_resume, retryLoop, h]

/-- Witness for C9 at concrete always-failing attempt streams. -/
theorem retry_loops_bounded_with_fallbacks_witness :
    (update_resume_with_groq (fun _ => HttpResult.netError)).1 = RunRes.returns []
    ∧ (summarize_readme "Demo" (fun _ => AttemptRes.softFail)).1
        = RunRes.returns (fallbackSummary "Demo")
    ∧ (generate_structured_resume (fun _ => AttemptRes.softFail)).1
        = RunRes.returns get_fallback_resume_structure := by
  obtain ⟨_, _, _, h4, h5, h6⟩ := retry_loops_bounded_with_fallbacks
    (fun _ => HttpResult.netError) (fun _ => AttemptRes.softFail)
    (fun _ => AttemptRes.softFail) "Demo"
  exact ⟨h4 (fun _ => rfl), h5 (fun _ => rfl), h6 (fun _ => rfl)⟩

/-- Claim C10.  The working copy is a shallow `dict.copy()`: it is one new
top-level dict node holding the very same child addresses (every nested
container is the same object in both documents, and nothing else is
copied); consequently any command whose in-place mutation targets a
nested container (an address distinct from both roots, as every
allocation-built document guarantees) leaves the two roots holding the
same node, so the session document reads back identically to the working
copy — the mutation is visible in the session document immediately. -/
theorem shallow_copy_shares_nested :
    ∀ (h : Heap) (root fresh : Addr) (fs : List (String × Addr)),
      h root = some (HNode.hobj fs) → fresh ≠ root →
      (dict_copy h root fresh = some (heapUpd h fresh (HNode.hobj fs))
       ∧ heapUpd h fresh (HNode.hobj fs) fresh = some (HNode.hobj fs)
       ∧ heapUpd h fresh (HNode.hobj fs) root = some (HNode.hobj fs)
       ∧ ∀ a, a ≠ fresh → heapUpd h fresh (HNode.hobj fs) a = h a)
      ∧ ∀ (c : Cmd) (g : Addr) (h2 : Heap) (tgt g2 : Addr),
          execCmdH (heapUpd h fresh (HNode.hobj fs)) fresh g c = some (h2, tgt, g2) →
          tgt ≠ root → tgt ≠ fresh → g ≠ root → g ≠ fresh →
          h2 root = h2 fresh
          ∧ ∀ fuel, readDoc fuel h2 root = readDoc fuel h2 fresh := by
  intro h root fresh fs hroot hfr
  constructor
  · refine ⟨?_, ?_, ?_, ?_⟩
    · unfold dict_copy
      rw [hroot]
    · simp [heapUpd]
    · show (if root = fresh then some (HNode.hobj fs) else h root) = _
      rw [if_neg (fun he => hfr he.symm), hroot]
    · intro a ha
      simp [heapUpd, ha]
  · intro c g h2 tgt g2 hexec htr htf hgr hgf
    obtain ⟨h1, h2e⟩ := roots_agree_after_nested_exec hroot hfr hexec htr htf hgr hgf
    exact ⟨h1.trans h2e.symm, readDoc_eq_of_same_node (h1.trans h2e.symm)⟩

/-- Witness for C10 at the concrete session heap: after the append runs
through the working copy, both roots hold the same node and read back the
same (updated) document. -/
theorem shallow_copy_shares_nested_witness :
    exHeapAfter 0 = exHeapAfter 3
    ∧ readDoc 4 exHeapAfter 0 = readDoc 4 exHeapAfter 3 := by
  obtain ⟨_, hnested⟩ := shallow_copy_shares_nested exHeap 0 3 [("skills", 1)] rfl (by decide)
  obtain ⟨ha, hb⟩ := hnested (Cmd.append [Seg.key "skills"] (JValue.s "Go")) 4
    exHeapAfter 1 5 rfl (by decide) (by decide) (by decide) (by decide)
  exact ⟨ha, hb 4⟩

end ResumeSpec
